import Mathlib

/-
  Shallow embedding of the append/rotate/prune engine of sim-logger
  (src/logger_core/src/file_sink.cpp, src/logger_core/src/rotating_file_sink.cpp).

  Strings of bytes are modelled as `List Char`; the uint32 / uint64 machine
  arithmetic of the source is modelled as `Nat` with explicit `% 2^32` /
  `% 2^64` where the source computes in those widths.  Filesystem state is
  explicit: the current base file's content plus an association list of the
  other files in the directory.  I/O faults other than the ones the code
  checks for (null handle, fflush failure) are not modelled; `fflush`
  success is an explicit Boolean oracle.
-/

namespace SimLogger

/-- 2^32, the modulus of `std::uint32_t` arithmetic. -/
def U32 : Nat := 4294967296

/-- 2^64, the modulus of `std::uint64_t` arithmetic. -/
def U64 : Nat := 18446744073709551616

/-- The digit test used throughout `parse_rotation_suffix`:
`c >= '0' && c <= '9'`. -/
def isDigitCh (c : Char) : Bool := decide ('0' ≤ c) && decide (c ≤ '9')

/-- `rfind(pre, 0) == 0` followed by `substr(pre.size())`: returns the
remainder of `l` after the leading occurrence of `p`, or `none` when `l`
does not start with `p`. -/
def dropPre : List Char → List Char → Option (List Char)
  | [], l => some l
  | _ :: _, [] => none
  | p :: ps, c :: cs => if c = p then dropPre ps cs else none

/-- The sequence-accumulation loop of `parse_rotation_suffix`
(rotating_file_sink.cpp lines 199-206): reject on a non-digit, otherwise
`acc = acc * 10 + (c - '0')` in `std::uint32_t` arithmetic. -/
def parseSeqLoop : List Char → Nat → Option Nat
  | [], acc => some acc
  | c :: cs, acc =>
    if isDigitCh c then parseSeqLoop cs ((acc * 10 + (c.toNat - 48)) % U32) else none

/-- The timestamp-shape validation of `parse_rotation_suffix`
(rotating_file_sink.cpp lines 177-190), applied to `ts = rest.substr(0, 15)`:
`ts[0..7]` digits, `ts[8] == '_'`, `ts[9..14]` digits.  Indexing is
rendered with `take`/`drop` (the function is only ever applied to a
15-character list). -/
def validTs (ts : List Char) : Bool :=
  ((ts.take 8).all isDigitCh) &&
  (match ts.drop 8 with
   | u :: _ => u == '_'
   | [] => false) &&
  (((ts.drop 9).take 6).all isDigitCh)

/-- `RotatingFileSink::parse_rotation_suffix` (rotating_file_sink.cpp
lines 159-218).  Returns `some (ts, seq)` exactly when the source returns
`true`, with the out-parameters' values. -/
def parse_rotation_suffix (filename base_filename : List Char) :
    Option (List Char × Nat) :=
  match dropPre (base_filename ++ ['.']) filename with
  | none => none
  | some rest =>
    if rest.length < 15 then none
    else
      let ts := rest.take 15
      if validTs ts then
        match rest.drop 15 with
        | [] => some (ts, 0)
        | c :: seqStr =>
          if c = '.' then
            if seqStr = [] then none
            else
              match parseSeqLoop seqStr 0 with
              | some sq => some (ts, sq)
              | none => none
          else none
      else none

/-- Decimal value of a digit string (mathematical, no wraparound); used to
state what the uint32 accumulator of `parseSeqLoop` computes modulo 2^32. -/
def decVal (s : List Char) : Nat :=
  s.foldl (fun x c => x * 10 + (c.toNat - 48)) 0

/-- Errors the modelled code can raise on the write/flush path. -/
inductive SinkErr where
  | nullHandle
  | flushFail
  | namingExhaustion
deriving Repr, DecidableEq

/-- Combined state of a `RotatingFileSink` and the directory it writes to.
`curContent` is the content of the file at `basePath`; `rotated` is the
association list (filename, content) of the other regular files in the
directory; `bytesWritten` is the uint64 counter of `FileSink`. -/
structure SinkState where
  basePath : List Char
  maxBytes : Nat
  maxRotatedFiles : Nat
  curContent : List Char
  bytesWritten : Nat
  fileOpen : Bool
  rotated : List (List Char × List Char)
  rotationsPerformed : Nat
deriving Repr, DecidableEq

/-- The condition of `FileSink::write_line_locked` and of the projected-size
computation in `RotatingFileSink::write`:
`line.empty() || line.back() != '\n'`. -/
def needsNewline (line : List Char) : Bool :=
  line.isEmpty || !(line.getLast? == some '\n')

/-- `FileSink::write_line_locked` (file_sink.cpp lines 107-115): full write
of the line, counter update, then conditional write of a single newline and
a second counter update.  `write_all_or_throw` raises when the handle is
null. -/
def write_line_locked (line : List Char) (s : SinkState) :
    SinkState × Option SinkErr :=
  if !s.fileOpen then (s, some SinkErr.nullHandle)
  else
    let s1 := { s with curContent := s.curContent ++ line,
                       bytesWritten := (s.bytesWritten + line.length) % U64 }
    if needsNewline line then
      ({ s1 with curContent := s1.curContent ++ ['\n'],
                 bytesWritten := (s1.bytesWritten + 1) % U64 }, none)
    else (s1, none)

/-- `FileSink::flush_locked` (file_sink.cpp lines 117-127):
`fflush_or_throw` raises on a null handle; otherwise the flush (and the
durable fsync, when configured) either succeeds — captured by the oracle
`flushOk` — or raises.  No modelled state changes. -/
def flush_locked (flushOk : Bool) (s : SinkState) : SinkState × Option SinkErr :=
  if !s.fileOpen then (s, some SinkErr.nullHandle)
  else if flushOk then (s, none)
  else (s, some SinkErr.flushFail)

/-- `FileSink::close_locked_noexcept` (file_sink.cpp lines 129-135):
closes the handle and zeroes the byte counter; the file itself is
untouched. -/
def close_locked_noexcept (s : SinkState) : SinkState :=
  { s with fileOpen := false, bytesWritten := 0 }

/-- `std::to_string(seq)` appended after a dot: the candidate rotated name
probed at sequence number `seq` (rotating_file_sink.cpp line 83). -/
def candName (rotatedBase : List Char) (seq : Nat) : List Char :=
  rotatedBase ++ '.' :: (Nat.repr seq).data

/-- `fs::exists` over the modelled directory: the base file plus the other
files listed in `rotated`. -/
def fsExists (s : SinkState) (name : List Char) : Bool :=
  name = s.basePath || (s.rotated.map Prod.fst).contains name

/-- The probe loop of `RotatingFileSink::rotate_locked` (lines 82-87):
`for (seq = 1; seq < 10000; ++seq)` probing `<rotatedBase>.<seq>` and
stopping at the first non-existing name.  Fuel counts the remaining
iterations; when the loop exhausts, `rotated_name` holds the last probed
name, `<rotatedBase>.9999`. -/
def probeLoop (exs : List Char → Bool) (rotatedBase : List Char) :
    Nat → Nat → List Char
  | 0, _ => candName rotatedBase 9999
  | fuel + 1, seq =>
    let name := candName rotatedBase seq
    if exs name then probeLoop exs rotatedBase fuel (seq + 1) else name

/-- The uniqueness search of `RotatingFileSink::rotate_locked`
(lines 79-92): keep `rotatedBase` if free, otherwise probe
`.1 .. .9999`; if the name finally held still exists, the rotation throws
(`none`). -/
def chooseRotatedName (exs : List Char → Bool) (rotatedBase : List Char) :
    Option (List Char) :=
  if exs rotatedBase then
    let name := probeLoop exs rotatedBase 9999 1
    if exs name then none else some name
  else some rotatedBase

/-- The full candidate list in probe order:
`rotatedBase, rotatedBase.1, …, rotatedBase.9999`. -/
def probeNames (rotatedBase : List Char) : List (List Char) :=
  rotatedBase :: (List.range' 1 9999).map (candName rotatedBase)

/-- A pruning candidate as gathered by
`RotatingFileSink::prune_old_rotations_locked`. -/
structure Candidate where
  name : List Char
  ts : List Char
  seq : Nat
deriving Repr, DecidableEq

/-- `std::string operator<`: lexicographic byte comparison, used on the
timestamp fields by the pruning comparator. -/
def strLt : List Char → List Char → Bool
  | [], [] => false
  | [], _ :: _ => true
  | _ :: _, [] => false
  | a :: as, b :: bs => if a < b then true else if b < a then false else strLt as bs

/-- The strict comparator passed to `std::sort` in
`prune_old_rotations_locked` (lines 139-144): order by timestamp string,
then by sequence number. -/
def candLt (a b : Candidate) : Bool :=
  if a.ts ≠ b.ts then strLt a.ts b.ts else decide (a.seq < b.seq)

/-- The non-strict order induced by `candLt`; a `std::sort` output is
exactly a permutation that is `Pairwise candLe`-sorted. -/
def candLe (a b : Candidate) : Bool := !(candLt b a)

/-- The candidate scan of `prune_old_rotations_locked` (lines 115-133):
every regular file in the directory whose name parses against the base
filename becomes a candidate carrying the parsed timestamp and sequence.
(The model takes `basePath` to have no directory component, so the base
filename is `basePath` itself and the directory listing is `rotated`.) -/
def collectCandidates (s : SinkState) : List Candidate :=
  s.rotated.filterMap fun f =>
    match parse_rotation_suffix f.1 s.basePath with
    | some (ts, sq) => some { name := f.1, ts := ts, seq := sq }
    | none => none

/-- One pruning pass over a candidate list (lines 135-153): nothing happens
when the count is at or below the limit; otherwise sort ascending and
delete the first `count - limit`.  Returns (deleted, kept). -/
def prunePass (cands : List Candidate) (limit : Nat) :
    List Candidate × List Candidate :=
  if cands.length ≤ limit then ([], cands)
  else
    let sorted := cands.mergeSort candLe
    (sorted.take (cands.length - limit), sorted.drop (cands.length - limit))

/-- `RotatingFileSink::prune_old_rotations_locked` (lines 102-157): early
return when no retention limit; otherwise delete (best-effort, modelled as
always succeeding) the files chosen by `prunePass`. -/
def prune_old_rotations_locked (s : SinkState) : SinkState :=
  if s.maxRotatedFiles = 0 then s
  else
    let cands := collectCandidates s
    let del := (prunePass cands s.maxRotatedFiles).1.map Candidate.name
    { s with rotated := s.rotated.filter fun f => !(del.contains f.1) }

/-- `RotatingFileSink::rotate_locked` (lines 70-100): flush, close, choose
a unique rotated name (throwing on exhaustion, before any rename), rename
the base file to it, reopen the base path (creating an empty file, the
byte counter reseeded from its size), bump the rotation counter, prune.
`ts` is the timestamp `make_timestamp_utc()` returned for this call. -/
def rotate_locked (flushOk : Bool) (ts : List Char) (s : SinkState) :
    SinkState × Option SinkErr :=
  match flush_locked flushOk s with
  | (s1, some e) => (s1, some e)
  | (s1, none) =>
    let s2 := close_locked_noexcept s1
    let rotatedBase := s2.basePath ++ '.' :: ts
    match chooseRotatedName (fsExists s2) rotatedBase with
    | none => (s2, some SinkErr.namingExhaustion)
    | some nm =>
      let s3 := { s2 with rotated := (nm, s2.curContent) :: s2.rotated,
                          curContent := [] }
      let s4 := { s3 with fileOpen := true, bytesWritten := s3.curContent.length }
      let s5 := { s4 with rotationsPerformed := s4.rotationsPerformed + 1 }
      (prune_old_rotations_locked s5, none)

/-- `RotatingFileSink::write` (lines 55-68), after formatting: compute the
projected size in uint64 arithmetic, rotate first when it reaches
`max_bytes`, then append the line.  An exception from the rotation
propagates without the line being written. -/
def RotatingFileSink.write (flushOk : Bool) (ts : List Char) (line : List Char)
    (s : SinkState) : SinkState × Option SinkErr :=
  let projected := (s.bytesWritten + line.length +
    (if needsNewline line then 1 else 0)) % U64
  if s.maxBytes ≤ projected then
    match rotate_locked flushOk ts s with
    | (s1, some e) => (s1, some e)
    | (s1, none) => write_line_locked line s1
  else write_line_locked line s

/-- The trailing bytes `write_line_locked` adds beyond the line itself. -/
def nlSuffix (line : List Char) : List Char :=
  if needsNewline line then ['\n'] else []

/-- Events observable during construction, for the construction-order
claims. -/
inductive CtorEvent where
  | openBaseFile
  | throwConfig
deriving Repr, DecidableEq

/-- `FileSink::FileSink` (file_sink.cpp lines 69-77): validate the path,
then open (creating if missing) the file.  Returns the event trace and
whether construction succeeded. -/
def fileSinkCtor (path : List Char) : List CtorEvent × Bool :=
  if path = [] then ([CtorEvent.throwConfig], false)
  else ([CtorEvent.openBaseFile], true)

/-- `RotatingFileSink::RotatingFileSink` (rotating_file_sink.cpp lines
38-53): the base `FileSink` constructor runs first (its exception
propagates); only then does the body validate the path again and
`max_bytes`. -/
def rotatingFileSinkCtor (path : List Char) (maxBytes : Nat) :
    List CtorEvent × Bool :=
  let b := fileSinkCtor path
  if b.2 = false then b
  else if path = [] then (b.1 ++ [CtorEvent.throwConfig], false)
  else if maxBytes = 0 then (b.1 ++ [CtorEvent.throwConfig], false)
  else b

/-- The timestamp shape in the words of the spec and claim: 8 digits, an
underscore, and 6 digits (hence 15 characters).  Spec-side definition,
to be compared with the code-translated `validTs`. -/
def tsShapeSpec (ts : List Char) : Prop :=
  ∃ d8 d6 : List Char, d8.length = 8 ∧ d6.length = 6 ∧
    (∀ c ∈ d8, isDigitCh c = true) ∧ (∀ c ∈ d6, isDigitCh c = true) ∧
    ts = d8 ++ '_' :: d6

/-- The rotated-name convention in the words of the spec and claim:
exactly `<base_filename>.<15-char timestamp>` optionally followed by
`.<sequence>` with a non-empty all-digit sequence string.  Spec-side
definition, to be compared with the code-translated
`parse_rotation_suffix`. -/
def specRotationName (filename base : List Char) : Prop :=
  ∃ ts, tsShapeSpec ts ∧
    (filename = base ++ '.' :: ts ∨
     ∃ sq, sq ≠ [] ∧ (∀ c ∈ sq, isDigitCh c = true) ∧
       filename = base ++ '.' :: ts ++ '.' :: sq)

/-- A concrete open sink state used by the witnesses. -/
def wSt : SinkState :=
  { basePath := "log".data, maxBytes := 5, maxRotatedFiles := 0,
    curContent := "hi\n".data, bytesWritten := 3, fileOpen := true,
    rotated := [], rotationsPerformed := 0 }

/-- A concrete open sink state with an empty base file. -/
def wStE : SinkState :=
  { basePath := "log".data, maxBytes := 3, maxRotatedFiles := 0,
    curContent := [], bytesWritten := 0, fileOpen := true,
    rotated := [], rotationsPerformed := 0 }

/-- A concrete open sink state with a large threshold and one pre-existing
rotated file. -/
def wSt2 : SinkState :=
  { basePath := "log".data, maxBytes := 100, maxRotatedFiles := 0,
    curContent := "hi\n".data, bytesWritten := 3, fileOpen := true,
    rotated := [("log.old".data, "x\n".data)], rotationsPerformed := 0 }

/-- Concrete candidates for the pruning witness. -/
def wCands : List Candidate :=
  [{ name := "log.20240101_000002".data, ts := "20240101_000002".data, seq := 0 },
   { name := "log.20240101_000001".data, ts := "20240101_000001".data, seq := 0 },
   { name := "log.20240101_000001.1".data, ts := "20240101_000001".data, seq := 1 }]

/-- A concrete sink state with retention limit 1 and a directory holding
two rotation-named files plus one non-matching file sharing the base
prefix. -/
def wSt5 : SinkState :=
  { basePath := "log".data, maxBytes := 100, maxRotatedFiles := 1,
    curContent := [], bytesWritten := 0, fileOpen := true,
    rotated := [("log.x".data, "a".data),
                ("log.20240101_000001".data, "b".data),
                ("log.20240101_000002".data, "c".data)],
    rotationsPerformed := 2 }

/-! ### Helper lemmas -/

theorem needsNewline_eq (line : List Char) :
    needsNewline line = !(line.getLast? == some '\n') := by
  cases line <;> simp [needsNewline]

theorem write_line_spec (line : List Char) (s : SinkState)
    (hopen : s.fileOpen = true)
    (h64 : s.bytesWritten + line.length + 1 < U64) :
    write_line_locked line s =
      ({ s with
          curContent := s.curContent ++ line ++ nlSuffix line,
          bytesWritten := s.bytesWritten + line.length +
            (if needsNewline line then 1 else 0) }, none) := by
  have h1 : (s.bytesWritten + line.length) % U64 = s.bytesWritten + line.length :=
    Nat.mod_eq_of_lt (by omega)
  have h2 : (s.bytesWritten + line.length + 1) % U64 =
      s.bytesWritten + line.length + 1 := Nat.mod_eq_of_lt h64
  cases hn : needsNewline line <;>
    simp [write_line_locked, hopen, hn, nlSuffix, h1, h2]

theorem write_line_rotated (line : List Char) (s : SinkState) :
    (write_line_locked line s).1.rotated = s.rotated := by
  unfold write_line_locked
  split
  · rfl
  · split <;> rfl

theorem write_line_rotations (line : List Char) (s : SinkState) :
    (write_line_locked line s).1.rotationsPerformed = s.rotationsPerformed := by
  unfold write_line_locked
  split
  · rfl
  · split <;> rfl

theorem flush_locked_fst (flushOk : Bool) (s : SinkState) :
    (flush_locked flushOk s).1 = s := by
  unfold flush_locked
  split
  · rfl
  · split <;> rfl

theorem prune_limit_zero (s : SinkState) (h : s.maxRotatedFiles = 0) :
    prune_old_rotations_locked s = s := by
  simp [prune_old_rotations_locked, h]

theorem prune_proj (s : SinkState) :
    (prune_old_rotations_locked s).basePath = s.basePath ∧
    (prune_old_rotations_locked s).curContent = s.curContent ∧
    (prune_old_rotations_locked s).bytesWritten = s.bytesWritten ∧
    (prune_old_rotations_locked s).fileOpen = s.fileOpen ∧
    (prune_old_rotations_locked s).rotationsPerformed = s.rotationsPerformed := by
  unfold prune_old_rotations_locked
  split <;> simp

theorem prune_rotated_sub (s : SinkState) :
    ∀ e ∈ (prune_old_rotations_locked s).rotated, e ∈ s.rotated := by
  unfold prune_old_rotations_locked
  split
  · simp
  · intro e he
    simp only at he
    exact (List.mem_filter.mp he).1

theorem rotate_locked_eq (ts : List Char) (s : SinkState) (hopen : s.fileOpen = true)
    (nm : List Char)
    (hnm : chooseRotatedName (fsExists s) (s.basePath ++ '.' :: ts) = some nm) :
    rotate_locked true ts s =
      (prune_old_rotations_locked
        { s with fileOpen := true, bytesWritten := 0,
                 curContent := [],
                 rotated := (nm, s.curContent) :: s.rotated,
                 rotationsPerformed := s.rotationsPerformed + 1 }, none) := by
  have hfs : fsExists { s with fileOpen := false, bytesWritten := 0 } = fsExists s := rfl
  simp [rotate_locked, flush_locked, hopen, close_locked_noexcept, hfs, hnm]

/-! ### Claims -/

/-- C2 (counterexample): at path "a" and max_bytes 0 the constructor does
raise a configuration error, but the claim "no file is opened or created
before the error is raised" fails: the base FileSink constructor has
already opened the base file. -/
theorem claim_C2_counterexample :
    ¬ ((rotatingFileSinkCtor ['a'] 0).2 = false ∧
       CtorEvent.openBaseFile ∉ (rotatingFileSinkCtor ['a'] 0).1) := by
  decide

/-- C2 (amended): constructing with an empty path raises a configuration
error before any file is opened; constructing with max_bytes = 0 and a
non-empty path raises a configuration error at construction, but only
after the base FileSink constructor has already opened (creating if
necessary) the base file; otherwise construction succeeds with the base
file opened. -/
theorem claim_C2 (path : List Char) (maxBytes : Nat) :
    rotatingFileSinkCtor path maxBytes =
      if path = [] then ([CtorEvent.throwConfig], false)
      else if maxBytes = 0 then
        ([CtorEvent.openBaseFile, CtorEvent.throwConfig], false)
      else ([CtorEvent.openBaseFile], true) := by
  by_cases hp : path = [] <;> by_cases hm : maxBytes = 0 <;>
    simp [rotatingFileSinkCtor, fileSinkCtor, hp, hm]

/-- C7: a successful `write_line_locked` appends a trailing newline iff the
line does not already end with one, and bumps the byte counter by exactly
the number of bytes physically written: `len(line)` plus 1 when the
implicit newline is appended. -/
theorem claim_C7 (line : List Char) (s : SinkState)
    (hopen : s.fileOpen = true)
    (h64 : s.bytesWritten + line.length + 1 < U64) :
    (write_line_locked line s).2 = none ∧
    (write_line_locked line s).1.curContent =
      s.curContent ++ line ++
        (if line.getLast? = some '\n' then [] else ['\n']) ∧
    (write_line_locked line s).1.bytesWritten =
      s.bytesWritten + line.length +
        (if line.getLast? = some '\n' then 0 else 1) := by
  rw [write_line_spec line s hopen h64]
  refine ⟨rfl, ?_, ?_⟩ <;>
    · simp only [nlSuffix, needsNewline_eq]
      by_cases h : line.getLast? = some '\n' <;> simp [h]

/-- C8: with the file open and the underlying flush succeeding, `flush`
raises no error and leaves the sink state (path, byte counter, file
content, rotated files) completely unchanged, over any number of calls. -/
theorem claim_C8 (s : SinkState) (hopen : s.fileOpen = true) :
    flush_locked true s = (s, none) ∧
    ∀ n : Nat, Nat.iterate (fun t => (flush_locked true t).1) n s = s := by
  constructor
  · simp [flush_locked, hopen]
  · intro n
    induction n with
    | zero => rfl
    | succ k ih =>
      have hstep : (fun t => (flush_locked true t).1) s = s := flush_locked_fst true s
      calc Nat.iterate (fun t => (flush_locked true t).1) (k + 1) s
          = Nat.iterate (fun t => (flush_locked true t).1) k
              ((fun t => (flush_locked true t).1) s) := rfl
        _ = Nat.iterate (fun t => (flush_locked true t).1) k s := by rw [hstep]
        _ = s := ih

theorem rotate_rotated_mem (flushOk : Bool) (ts : List Char) (s : SinkState)
    (h0 : s.maxRotatedFiles = 0) :
    ∀ e ∈ s.rotated, e ∈ (rotate_locked flushOk ts s).1.rotated := by
  intro e he
  unfold rotate_locked
  rcases hfl : flush_locked flushOk s with ⟨s1, err⟩
  have hs1 : s1 = s := by
    have h := flush_locked_fst flushOk s
    rw [hfl] at h
    exact h
  cases err with
  | some e2 => simpa [hs1] using he
  | none =>
    simp only [hs1]
    cases hch : chooseRotatedName (fsExists (close_locked_noexcept s))
        ((close_locked_noexcept s).basePath ++ '.' :: ts) with
    | none => simpa [close_locked_noexcept] using he
    | some nm =>
      simp only
      rw [prune_limit_zero _ (by simp [close_locked_noexcept, h0])]
      simp [close_locked_noexcept]
      exact Or.inr he

/-- C6: a write whose projected size stays below the threshold leaves the
set of rotated files on disk unchanged; flush never changes the sink
state at all; and with retention limit 0, no rotated file is ever deleted
by any write, rotating or not. -/
theorem claim_C6 (flushOk : Bool) (ts line : List Char) (s : SinkState) :
    ((s.bytesWritten + line.length +
        (if needsNewline line then 1 else 0)) % U64 < s.maxBytes →
      (RotatingFileSink.write flushOk ts line s).1.rotated = s.rotated) ∧
    ((flush_locked flushOk s).1 = s) ∧
    (s.maxRotatedFiles = 0 →
      ∀ e ∈ s.rotated, e ∈ (RotatingFileSink.write flushOk ts line s).1.rotated) := by
  refine ⟨?_, flush_locked_fst flushOk s, ?_⟩
  · intro h
    simp only [RotatingFileSink.write]
    rw [if_neg (Nat.not_le.mpr h)]
    exact write_line_rotated line s
  · intro h0 e he
    simp only [RotatingFileSink.write]
    by_cases hc : s.maxBytes ≤ (s.bytesWritten + line.length +
        (if needsNewline line then 1 else 0)) % U64
    · rw [if_pos hc]
      rcases hr : rotate_locked flushOk ts s with ⟨s1, err⟩
      have hmem : e ∈ s1.rotated := by
        have h := rotate_rotated_mem flushOk ts s h0 e he
        rw [hr] at h
        exact h
      cases err with
      | none => simpa [write_line_rotated] using hmem
      | some e2 => exact hmem
    · rw [if_neg hc]
      rw [write_line_rotated]
      exact he

/-- C1: for a successful `RotatingFileSink::write`, a rotation happens
before the line is written exactly when
`projected = bytes_written + len(line) + (1 if empty or no trailing newline)`
reaches `max_bytes`; the triggering line lands wholly in the new
post-rotation file (which then contains exactly that line), never in the
old file (every rotated file holds either a pre-existing content or
exactly the pre-write base content). -/
theorem claim_C1 (ts line : List Char) (s : SinkState)
    (hopen : s.fileOpen = true)
    (h64 : s.bytesWritten + line.length + 1 < U64)
    (hname : chooseRotatedName (fsExists s) (s.basePath ++ '.' :: ts) ≠ none) :
    (RotatingFileSink.write true ts line s).2 = none ∧
    ((RotatingFileSink.write true ts line s).1.rotationsPerformed =
        s.rotationsPerformed + 1 ↔
      s.maxBytes ≤ s.bytesWritten + line.length +
        (if needsNewline line then 1 else 0)) ∧
    (s.maxBytes ≤ s.bytesWritten + line.length +
        (if needsNewline line then 1 else 0) →
      (RotatingFileSink.write true ts line s).1.curContent =
        line ++ nlSuffix line ∧
      ∀ e ∈ (RotatingFileSink.write true ts line s).1.rotated,
        e ∈ s.rotated ∨ e.2 = s.curContent) ∧
    (s.bytesWritten + line.length + (if needsNewline line then 1 else 0) <
        s.maxBytes →
      (RotatingFileSink.write true ts line s).1.curContent =
        s.curContent ++ line ++ nlSuffix line ∧
      (RotatingFileSink.write true ts line s).1.rotated = s.rotated) := by
  have hite : (if needsNewline line then 1 else 0) ≤ 1 := by split <;> simp
  have hproj : (s.bytesWritten + line.length +
      (if needsNewline line then 1 else 0)) % U64 =
      s.bytesWritten + line.length + (if needsNewline line then 1 else 0) :=
    Nat.mod_eq_of_lt (by omega)
  rcases hch : chooseRotatedName (fsExists s) (s.basePath ++ '.' :: ts) with _ | nm
  · exact absurd hch hname
  by_cases hc : s.maxBytes ≤ s.bytesWritten + line.length +
      (if needsNewline line then 1 else 0)
  · have hw : RotatingFileSink.write true ts line s =
        write_line_locked line (prune_old_rotations_locked
          { s with fileOpen := true, bytesWritten := 0, curContent := [],
                   rotated := (nm, s.curContent) :: s.rotated,
                   rotationsPerformed := s.rotationsPerformed + 1 }) := by
      simp only [RotatingFileSink.write, hproj]
      rw [if_pos hc, rotate_locked_eq ts s hopen nm hch]
    have hPopen : (prune_old_rotations_locked
        { s with fileOpen := true, bytesWritten := 0, curContent := [],
                 rotated := (nm, s.curContent) :: s.rotated,
                 rotationsPerformed := s.rotationsPerformed + 1 }).fileOpen = true :=
      (prune_proj _).2.2.2.1
    have hPbw : (prune_old_rotations_locked
        { s with fileOpen := true, bytesWritten := 0, curContent := [],
                 rotated := (nm, s.curContent) :: s.rotated,
                 rotationsPerformed := s.rotationsPerformed + 1 }).bytesWritten = 0 :=
      (prune_proj _).2.2.1
    have hPcur : (prune_old_rotations_locked
        { s with fileOpen := true, bytesWritten := 0, curContent := [],
                 rotated := (nm, s.curContent) :: s.rotated,
                 rotationsPerformed := s.rotationsPerformed + 1 }).curContent = [] :=
      (prune_proj _).2.1
    have hProt : (prune_old_rotations_locked
        { s with fileOpen := true, bytesWritten := 0, curContent := [],
                 rotated := (nm, s.curContent) :: s.rotated,
                 rotationsPerformed := s.rotationsPerformed + 1 }).rotationsPerformed =
        s.rotationsPerformed + 1 := (prune_proj _).2.2.2.2
    have hws := write_line_spec line _ hPopen (by rw [hPbw]; omega)
    rw [hw, hws]
    refine ⟨rfl, ?_, fun _ => ⟨?_, ?_⟩, fun hlt => absurd hc (by omega)⟩
    · exact ⟨fun _ => hc, fun _ => by simp [hProt]⟩
    · rw [hPcur]
      simp
    · intro e he
      simp only at he
      have hsub := prune_rotated_sub _ e he
      rcases List.mem_cons.mp hsub with h1 | h2
      · exact Or.inr (by rw [h1])
      · exact Or.inl h2
  · have hw : RotatingFileSink.write true ts line s = write_line_locked line s := by
      simp only [RotatingFileSink.write, hproj]
      rw [if_neg hc]
    have hws := write_line_spec line s hopen h64
    rw [hw, hws]
    refine ⟨rfl, ?_, fun h1 => absurd h1 hc, fun _ => ⟨rfl, rfl⟩⟩
    simp only
    exact iff_of_false (by omega) hc

/-- C9: a line whose own size (plus its implicit newline) already reaches
`max_bytes` forces a rotation on every write, whatever `bytes_written` is
— including 0 — so the triggering line always ends up alone in the fresh
base file, and (retention permitting) the previous base content, even a
zero-length one, is renamed into a rotated file. -/
theorem claim_C9 (ts line : List Char) (s : SinkState)
    (hopen : s.fileOpen = true)
    (h64 : s.bytesWritten + line.length + 1 < U64)
    (hbig : s.maxBytes ≤ line.length + (if needsNewline line then 1 else 0))
    (hname : chooseRotatedName (fsExists s) (s.basePath ++ '.' :: ts) ≠ none) :
    (RotatingFileSink.write true ts line s).2 = none ∧
    (RotatingFileSink.write true ts line s).1.rotationsPerformed =
      s.rotationsPerformed + 1 ∧
    (RotatingFileSink.write true ts line s).1.curContent =
      line ++ nlSuffix line ∧
    (s.maxRotatedFiles = 0 → ∃ nm,
      (nm, s.curContent) ∈ (RotatingFileSink.write true ts line s).1.rotated) := by
  have hite : (if needsNewline line then 1 else 0) ≤ 1 := by split <;> simp
  have hc : s.maxBytes ≤ s.bytesWritten + line.length +
      (if needsNewline line then 1 else 0) := by omega
  have hproj : (s.bytesWritten + line.length +
      (if needsNewline line then 1 else 0)) % U64 =
      s.bytesWritten + line.length + (if needsNewline line then 1 else 0) :=
    Nat.mod_eq_of_lt (by omega)
  rcases hch : chooseRotatedName (fsExists s) (s.basePath ++ '.' :: ts) with _ | nm
  · exact absurd hch hname
  have hw : RotatingFileSink.write true ts line s =
      write_line_locked line (prune_old_rotations_locked
        { s with fileOpen := true, bytesWritten := 0, curContent := [],
                 rotated := (nm, s.curContent) :: s.rotated,
                 rotationsPerformed := s.rotationsPerformed + 1 }) := by
    simp only [RotatingFileSink.write, hproj]
    rw [if_pos hc, rotate_locked_eq ts s hopen nm hch]
  have hPopen : (prune_old_rotations_locked
      { s with fileOpen := true, bytesWritten := 0, curContent := [],
               rotated := (nm, s.curContent) :: s.rotated,
               rotationsPerformed := s.rotationsPerformed + 1 }).fileOpen = true :=
    (prune_proj _).2.2.2.1
  have hPbw : (prune_old_rotations_locked
      { s with fileOpen := true, bytesWritten := 0, curContent := [],
               rotated := (nm, s.curContent) :: s.rotated,
               rotationsPerformed := s.rotationsPerformed + 1 }).bytesWritten = 0 :=
    (prune_proj _).2.2.1
  have hPcur : (prune_old_rotations_locked
      { s with fileOpen := true, bytesWritten := 0, curContent := [],
               rotated := (nm, s.curContent) :: s.rotated,
               rotationsPerformed := s.rotationsPerformed + 1 }).curContent = [] :=
    (prune_proj _).2.1
  have hProt : (prune_old_rotations_locked
      { s with fileOpen := true, bytesWritten := 0, curContent := [],
               rotated := (nm, s.curContent) :: s.rotated,
               rotationsPerformed := s.rotationsPerformed + 1 }).rotationsPerformed =
      s.rotationsPerformed + 1 := (prune_proj _).2.2.2.2
  have hws := write_line_spec line _ hPopen (by rw [hPbw]; omega)
  rw [hw, hws]
  refine ⟨rfl, by simpa using hProt, ?_, ?_⟩
  · rw [hPcur]
    simp
  · intro h0
    refine ⟨nm, ?_⟩
    have hpz : prune_old_rotations_locked
        { s with fileOpen := true, bytesWritten := 0, curContent := [],
                 rotated := (nm, s.curContent) :: s.rotated,
                 rotationsPerformed := s.rotationsPerformed + 1 } =
        { s with fileOpen := true, bytesWritten := 0, curContent := [],
                 rotated := (nm, s.curContent) :: s.rotated,
                 rotationsPerformed := s.rotationsPerformed + 1 } :=
      prune_limit_zero _ h0
    simp only [hpz]
    exact List.mem_cons_self _ _

theorem probeLoop_spec (exs : List Char → Bool) (rb : List Char) :
    ∀ k seq : Nat,
      probeLoop exs rb k seq =
        (((List.range' seq k).map (candName rb)).find?
          (fun n => !exs n)).getD (candName rb 9999) := by
  intro k
  induction k with
  | zero => intro seq; simp [probeLoop]
  | succ k ih =>
    intro seq
    rw [List.range'_succ, List.map_cons]
    cases hx : exs (candName rb seq) with
    | true =>
      rw [List.find?_cons_of_neg _ (by simp [hx])]
      simpa [probeLoop, hx] using ih (seq + 1)
    | false =>
      rw [List.find?_cons_of_pos _ (by simp [hx])]
      simp [probeLoop, hx]

theorem chooseRotatedName_eq (exs : List Char → Bool) (rb : List Char) :
    chooseRotatedName exs rb = (probeNames rb).find? (fun n => !exs n) := by
  unfold chooseRotatedName probeNames
  cases hx : exs rb with
  | false =>
    rw [List.find?_cons_of_pos _ (by simp [hx])]
    simp
  | true =>
    rw [List.find?_cons_of_neg _ (by simp [hx])]
    rw [probeLoop_spec exs rb 9999 1]
    cases hf : ((List.range' 1 9999).map (candName rb)).find? (fun n => !exs n) with
    | some nm =>
      have hnm : exs nm = false := by
        have h := List.find?_some hf
        simpa using h
      simp [hnm]
    | none =>
      have hmem : candName rb 9999 ∈ (List.range' 1 9999).map (candName rb) := by
        refine List.mem_map_of_mem _ ?_
        rw [List.mem_range']
        exact ⟨9998, by omega, by omega⟩
      have hexs : exs (candName rb 9999) = true := by
        have h := List.find?_eq_none.mp hf _ hmem
        simpa using h
      simp [hexs]

/-- C3: during rotation the candidate names `<base>.<ts>`, `<base>.<ts>.1`,
…, `<base>.<ts>.9999` are probed in increasing order and the first
non-existing one is chosen (`find?` over the ordered probe list); when
every probed name exists the rotation raises the naming-exhaustion error
for that write with the filesystem untouched — no rename performed, the
base file still at the base path with its content intact (only the handle
is closed and the counter reset, exactly as the code does before
probing). -/
theorem claim_C3 (ts : List Char) (s : SinkState) (hopen : s.fileOpen = true) :
    chooseRotatedName (fsExists s) (s.basePath ++ '.' :: ts) =
      (probeNames (s.basePath ++ '.' :: ts)).find? (fun n => !(fsExists s n)) ∧
    ((probeNames (s.basePath ++ '.' :: ts)).all (fun n => fsExists s n) = true →
      rotate_locked true ts s =
        ({ s with fileOpen := false, bytesWritten := 0 },
         some SinkErr.namingExhaustion)) := by
  refine ⟨chooseRotatedName_eq _ _, fun hall => ?_⟩
  have hnone : chooseRotatedName (fsExists s) (s.basePath ++ '.' :: ts) = none := by
    rw [chooseRotatedName_eq, List.find?_eq_none]
    intro x hx
    have h := List.all_eq_true.mp hall x hx
    simp [h]
  have hfs : fsExists { s with fileOpen := false, bytesWritten := 0 } = fsExists s := rfl
  simp [rotate_locked, flush_locked, hopen, close_locked_noexcept, hfs, hnone]

theorem strLt_iff (a b : List Char) : strLt a b = true ↔ a < b := by
  induction a generalizing b with
  | nil =>
    cases b with
    | nil =>
      refine iff_of_false (by simp [strLt]) ?_
      intro h
      exact List.Lex.not_nil_right _ _ h
    | cons y ys => exact iff_of_true rfl List.Lex.nil
  | cons x xs ih =>
    cases b with
    | nil =>
      refine iff_of_false (by simp [strLt]) ?_
      intro h
      exact List.Lex.not_nil_right _ _ h
    | cons y ys =>
      by_cases hxy : x < y
      · refine iff_of_true (by simp [strLt, hxy]) (List.Lex.rel hxy)
      · by_cases hyx : y < x
        · refine iff_of_false (by simp [strLt, hxy, hyx]) ?_
          intro h
          cases h with
          | cons h2 => exact lt_irrefl x hyx
          | rel h2 => exact lt_asymm h2 hyx
        · have hxy2 : x = y := le_antisymm (le_of_not_lt hyx) (le_of_not_lt hxy)
          subst hxy2
          have hstep : strLt (x :: xs) (x :: ys) = strLt xs ys := by
            simp [strLt, lt_irrefl]
          rw [hstep, ih ys]
          constructor
          · intro h
            exact List.Lex.cons h
          · intro h
            cases h with
            | cons h2 => exact h2
            | rel h2 => exact absurd h2 (lt_irrefl x)

theorem strLt_asymm2 (a b : List Char) (h : strLt a b = true) :
    strLt b a = false := by
  rw [strLt_iff] at h
  rw [Bool.eq_false_iff]
  intro h2
  rw [strLt_iff] at h2
  exact lt_asymm h h2

theorem strLt_trans2 (a b c : List Char) (h1 : strLt a b = true)
    (h2 : strLt b c = true) : strLt a c = true := by
  rw [strLt_iff] at h1 h2 ⊢
  exact lt_trans h1 h2

theorem strLt_connex (a b : List Char) (h1 : strLt a b = false)
    (h2 : strLt b a = false) : a = b := by
  have k1 : ¬ a < b := fun h => by rw [← strLt_iff] at h; rw [h1] at h; cases h
  have k2 : ¬ b < a := fun h => by rw [← strLt_iff] at h; rw [h2] at h; cases h
  exact le_antisymm (le_of_not_lt k2) (le_of_not_lt k1)

theorem strLt_irrefl2 (a : List Char) : strLt a a = false := by
  rw [Bool.eq_false_iff]
  intro h
  rw [strLt_iff] at h
  exact lt_irrefl a h

theorem candLt_iff (x y : Candidate) :
    candLt x y = true ↔
      strLt x.ts y.ts = true ∨ (x.ts = y.ts ∧ x.seq < y.seq) := by
  unfold candLt
  by_cases h : x.ts = y.ts
  · simp [h, strLt_irrefl2]
  · simp [h]

/-- `candLe` in propositional form: the x is no later than y by
(timestamp, sequence). -/
theorem candLe_iff (x y : Candidate) :
    candLe x y = true ↔
      strLt x.ts y.ts = true ∨ (x.ts = y.ts ∧ x.seq ≤ y.seq) := by
  unfold candLe
  rw [Bool.not_eq_true']
  constructor
  · intro h
    have h2 : ¬ (strLt y.ts x.ts = true ∨ (y.ts = x.ts ∧ y.seq < x.seq)) := by
      rw [← candLt_iff]
      simp [h]
    push_neg at h2
    by_cases hts : x.ts = y.ts
    · exact Or.inr ⟨hts, h2.2 hts.symm⟩
    · left
      rcases hst : strLt x.ts y.ts with _ | _
      · exact absurd (strLt_connex _ _ (Bool.eq_false_iff.mpr h2.1) hst)
          (fun he => hts he.symm)
      · rfl
  · intro h
    rw [Bool.eq_false_iff]
    intro hlt
    rcases (candLt_iff y x).mp hlt with h1 | h2
    · rcases h with ha | hb
      · exact absurd (strLt_trans2 _ _ _ ha h1) (by simp [strLt_irrefl2])
      · rw [hb.1] at h1
        exact absurd h1 (by simp [strLt_irrefl2])
    · rcases h with ha | hb
      · rw [h2.1] at ha
        exact absurd ha (by simp [strLt_irrefl2])
      · omega

theorem candLe_total (x y : Candidate) : (candLe x y || candLe y x) = true := by
  rw [Bool.or_eq_true, candLe_iff, candLe_iff]
  by_cases hts : x.ts = y.ts
  · rcases Nat.le_total x.seq y.seq with h | h
    · exact Or.inl (Or.inr ⟨hts, h⟩)
    · exact Or.inr (Or.inr ⟨hts.symm, h⟩)
  · rcases hst : strLt x.ts y.ts with _ | _
    · rcases hst2 : strLt y.ts x.ts with _ | _
      · exact absurd (strLt_connex _ _ hst hst2) hts
      · exact Or.inr (Or.inl rfl)
    · exact Or.inl (Or.inl rfl)

theorem candLe_trans (x y z : Candidate) (h1 : candLe x y = true)
    (h2 : candLe y z = true) : candLe x z = true := by
  rw [candLe_iff] at h1 h2 ⊢
  rcases h1 with a1 | b1 <;> rcases h2 with a2 | b2
  · exact Or.inl (strLt_trans2 _ _ _ a1 a2)
  · exact Or.inl (by rw [← b2.1]; exact a1)
  · exact Or.inl (by rw [b1.1]; exact a2)
  · exact Or.inr ⟨b1.1.trans b2.1, Nat.le_trans b1.2 b2.2⟩

/-- C4: a pruning pass with retention limit `L > 0` over `C > L`
candidates deletes exactly the first `C - L` entries of the candidate
list sorted ascending by (timestamp string, sequence number), keeps
exactly `L`, deleted-plus-kept is the sorted permutation of the
candidates, and every kept candidate is at least every deleted one under
that ordering — the kept ones are the `L` greatest. -/
theorem claim_C4 (cands : List Candidate) (L : Nat) (hL : 0 < L)
    (hC : L < cands.length) :
    (prunePass cands L).1.length = cands.length - L ∧
    (prunePass cands L).2.length = L ∧
    List.Pairwise (fun a b => candLe a b = true)
      ((prunePass cands L).1 ++ (prunePass cands L).2) ∧
    ((prunePass cands L).1 ++ (prunePass cands L).2).Perm cands ∧
    ∀ d ∈ (prunePass cands L).1, ∀ r ∈ (prunePass cands L).2,
      candLe d r = true := by
  have hnot : ¬ cands.length ≤ L := by omega
  have hpp : prunePass cands L =
      ((cands.mergeSort candLe).take (cands.length - L),
       (cands.mergeSort candLe).drop (cands.length - L)) := by
    simp [prunePass, hnot]
  have hlen : (cands.mergeSort candLe).length = cands.length :=
    List.length_mergeSort cands
  have happ : (cands.mergeSort candLe).take (cands.length - L) ++
      (cands.mergeSort candLe).drop (cands.length - L) =
      cands.mergeSort candLe := List.take_append_drop _ _
  have hsorted : List.Pairwise (fun a b => candLe a b = true)
      (cands.mergeSort candLe) :=
    List.sorted_mergeSort candLe_trans candLe_total cands
  rw [hpp]
  refine ⟨?_, ?_, ?_, ?_, ?_⟩
  · rw [List.length_take, hlen]
    omega
  · rw [List.length_drop, hlen]
    omega
  · rw [happ]
    exact hsorted
  · rw [happ]
    exact List.mergeSort_perm cands candLe
  · have hpw : List.Pairwise (fun a b => candLe a b = true)
        ((cands.mergeSort candLe).take (cands.length - L) ++
         (cands.mergeSort candLe).drop (cands.length - L)) := by
      rw [happ]
      exact hsorted
    exact (List.pairwise_append.mp hpw).2.2

theorem dropPre_eq_some (p : List Char) :
    ∀ l r : List Char, dropPre p l = some r ↔ l = p ++ r := by
  induction p with
  | nil =>
    intro l r
    simp [dropPre]
  | cons c cs ih =>
    intro l r
    cases l with
    | nil => simp [dropPre]
    | cons x xs =>
      simp only [dropPre]
      by_cases hx : x = c
      · simp [hx, ih]
      · simp [hx]

theorem parseSeqLoop_isSome : ∀ (s : List Char) (a : Nat),
    (parseSeqLoop s a).isSome = true ↔ ∀ c ∈ s, isDigitCh c = true := by
  intro s
  induction s with
  | nil =>
    intro a
    simp [parseSeqLoop]
  | cons c cs ih =>
    intro a
    by_cases hc : isDigitCh c = true
    · simp [parseSeqLoop, hc, ih]
    · simp [parseSeqLoop, hc]

theorem parseSeqLoop_digits : ∀ (s : List Char) (a : Nat),
    (∀ c ∈ s, isDigitCh c = true) →
    parseSeqLoop s (a % U32) =
      some ((s.foldl (fun x c => x * 10 + (c.toNat - 48)) a) % U32) := by
  intro s
  induction s with
  | nil =>
    intro a _
    simp [parseSeqLoop]
  | cons c cs ih =>
    intro a h
    have hc : isDigitCh c = true := h c (List.mem_cons_self _ _)
    have hmod : (a % U32 * 10 + (c.toNat - 48)) % U32 =
        (a * 10 + (c.toNat - 48)) % U32 := by
      simp only [U32]
      omega
    simp only [parseSeqLoop, hc, if_true]
    rw [hmod, ih (a * 10 + (c.toNat - 48))
      (fun x hx => h x (List.mem_cons_of_mem _ hx))]
    rfl

theorem validTs_iff (ts : List Char) (hlen : ts.length = 15) :
    validTs ts = true ↔ tsShapeSpec ts := by
  constructor
  · intro h
    simp only [validTs, Bool.and_eq_true] at h
    obtain ⟨⟨hall8, hu⟩, hall6⟩ := h
    cases hd : ts.drop 8 with
    | nil =>
      rw [hd] at hu
      simp at hu
    | cons u rest =>
      rw [hd] at hu
      have hu2 : u = '_' := by simpa using hu
      have hrest : rest = ts.drop 9 := by
        have h1 : (ts.drop 8).drop 1 = ts.drop 9 := List.drop_drop 1 8 ts
        rw [hd] at h1
        simpa using h1
      refine ⟨ts.take 8, ts.drop 9, ?_, ?_, ?_, ?_, ?_⟩
      · rw [List.length_take]
        omega
      · rw [List.length_drop]
        omega
      · exact List.all_eq_true.mp hall8
      · have h6 : (ts.drop 9).take 6 = ts.drop 9 :=
          List.take_of_length_le (by rw [List.length_drop]; omega)
        rw [h6] at hall6
        exact List.all_eq_true.mp hall6
      · conv_lhs => rw [← List.take_append_drop 8 ts]
        rw [hd, hu2, hrest]
  · rintro ⟨d8, d6, h8, h6, hd8, hd6, rfl⟩
    have htake : (d8 ++ '_' :: d6).take 8 = d8 := List.take_left' h8
    have hdrop : (d8 ++ '_' :: d6).drop 8 = '_' :: d6 := List.drop_left' h8
    have hdrop9 : (d8 ++ '_' :: d6).drop 9 = d6 := by
      have ha : d8 ++ '_' :: d6 = (d8 ++ ['_']) ++ d6 := by simp
      rw [ha]
      exact List.drop_left' (by simp [h8])
    simp only [validTs, htake, hdrop, hdrop9, Bool.and_eq_true]
    refine ⟨⟨List.all_eq_true.mpr hd8, rfl⟩, ?_⟩
    rw [List.take_of_length_le (by omega)]
    exact List.all_eq_true.mpr hd6

theorem parse_isSome_iff (filename base : List Char) :
    (parse_rotation_suffix filename base).isSome = true ↔
      specRotationName filename base := by
  constructor
  · intro hps
    cases hdp : dropPre (base ++ ['.']) filename with
    | none => simp [parse_rotation_suffix, hdp] at hps
    | some rest =>
      have hfn : filename = (base ++ ['.']) ++ rest := (dropPre_eq_some _ _ _).mp hdp
      simp only [parse_rotation_suffix, hdp] at hps
      by_cases h15 : rest.length < 15
      · simp [h15] at hps
      rw [if_neg h15] at hps
      have hlen15 : (rest.take 15).length = 15 := by
        rw [List.length_take]
        omega
      by_cases hv : validTs (rest.take 15) = true
      case neg => simp [hv] at hps
      rw [if_pos hv] at hps
      cases hdr : rest.drop 15 with
      | nil =>
        have hrest : rest = rest.take 15 := by
          conv_lhs => rw [← List.take_append_drop 15 rest]
          rw [hdr, List.append_nil]
        refine ⟨rest.take 15, (validTs_iff _ hlen15).mp hv, Or.inl ?_⟩
        rw [hfn, ← hrest]
        simp
      | cons c tail =>
        rw [hdr] at hps
        by_cases hcdot : c = '.'
        case neg => simp [hcdot] at hps
        subst hcdot
        by_cases htail : tail = []
        · simp [htail] at hps
        simp only [htail, if_true, if_false, ite_true, ite_false, reduceCtorEq,
          reduceIte] at hps
        cases hloop : parseSeqLoop tail 0 with
        | none => rw [hloop] at hps; simp at hps
        | some sq =>
          have hdig : ∀ c ∈ tail, isDigitCh c = true :=
            (parseSeqLoop_isSome tail 0).mp (by rw [hloop]; rfl)
          have hrest : rest = rest.take 15 ++ '.' :: tail := by
            conv_lhs => rw [← List.take_append_drop 15 rest]
            rw [hdr]
          refine ⟨rest.take 15, (validTs_iff _ hlen15).mp hv,
            Or.inr ⟨tail, htail, hdig, ?_⟩⟩
          rw [hfn]
          conv_lhs => rw [hrest]
          simp
  · rintro ⟨ts, hshape, hcase⟩
    have hlen : ts.length = 15 := by
      obtain ⟨d8, d6, h8, h6, _, _, rfl⟩ := hshape
      simp [h8, h6]
    have hv : validTs ts = true := (validTs_iff ts hlen).mpr hshape
    rcases hcase with hf | ⟨sq, hsqne, hsqd, hf⟩
    · have hdp : dropPre (base ++ ['.']) filename = some ts :=
        (dropPre_eq_some _ _ _).mpr (by rw [hf]; simp)
      have h1 : ¬ ts.length < 15 := by omega
      have h2 : ts.take 15 = ts := List.take_of_length_le (by omega)
      have h3 : ts.drop 15 = [] := List.drop_eq_nil_of_le (by omega)
      simp [parse_rotation_suffix, hdp, h1, h2, h3, hv]
    · have hdp : dropPre (base ++ ['.']) filename = some (ts ++ '.' :: sq) :=
        (dropPre_eq_some _ _ _).mpr (by rw [hf]; simp)
      have h1 : ¬ (ts ++ '.' :: sq).length < 15 := by
        simp only [List.length_append, List.length_cons]
        omega
      have h2 : (ts ++ '.' :: sq).take 15 = ts := List.take_left' hlen
      have h3 : (ts ++ '.' :: sq).drop 15 = '.' :: sq := List.drop_left' hlen
      obtain ⟨v, hv2⟩ : ∃ v, parseSeqLoop sq 0 = some v :=
        Option.isSome_iff_exists.mp ((parseSeqLoop_isSome sq 0).mpr hsqd)
      simp [parse_rotation_suffix, hdp, h1, h2, h3, hv, hsqne, hv2]
      omega

theorem collectCandidates_isSome (s : SinkState) :
    ∀ cand ∈ collectCandidates s,
      (parse_rotation_suffix cand.name s.basePath).isSome = true := by
  intro cand hc
  unfold collectCandidates at hc
  obtain ⟨a, ha, heq⟩ := List.mem_filterMap.mp hc
  cases hp : parse_rotation_suffix a.1 s.basePath with
  | none => rw [hp] at heq; simp at heq
  | some p =>
    rw [hp] at heq
    simp only [Option.some.injEq] at heq
    have hname : cand.name = a.1 := by rw [← heq]
    rw [hname, hp]
    rfl

theorem prunePass_fst_sub (cands : List Candidate) (L : Nat) :
    ∀ x ∈ (prunePass cands L).1, x ∈ cands := by
  intro x hx
  unfold prunePass at hx
  split at hx
  · simp at hx
  · have h1 : x ∈ cands.mergeSort candLe := List.mem_of_mem_take hx
    exact List.mem_mergeSort.mp h1

/-- C5: a filename is accepted as a pruning candidate exactly when it is
`<base_filename>.<8 digits>_<6 digits>` optionally followed by a dot and a
non-empty all-digit sequence string; any other filename — even one sharing
the base-filename prefix — is never deleted by the pruner. -/
theorem claim_C5 (filename base : List Char) :
    ((parse_rotation_suffix filename base).isSome = true ↔
      specRotationName filename base) ∧
    (¬ specRotationName filename base →
      ∀ (s : SinkState) (content : List Char), s.basePath = base →
        (filename, content) ∈ s.rotated →
        (filename, content) ∈ (prune_old_rotations_locked s).rotated) := by
  refine ⟨parse_isSome_iff filename base, ?_⟩
  intro hns s content hbase hmem
  unfold prune_old_rotations_locked
  split
  · exact hmem
  · simp only
    rw [List.mem_filter]
    refine ⟨hmem, ?_⟩
    rw [Bool.not_eq_true']
    rcases hcont : ((prunePass (collectCandidates s)
        s.maxRotatedFiles).1.map Candidate.name).contains filename with _ | _
    · rfl
    · exfalso
      have hmemdel : filename ∈ (prunePass (collectCandidates s)
          s.maxRotatedFiles).1.map Candidate.name := by
        simpa using hcont
      obtain ⟨cand, hcand, hcname⟩ := List.mem_map.mp hmemdel
      have hincands : cand ∈ collectCandidates s :=
        prunePass_fst_sub _ _ cand hcand
      have hsome := collectCandidates_isSome s cand hincands
      rw [hcname, hbase] at hsome
      exact hns ((parse_isSome_iff filename base).mp hsome)

/-- C10: the optional sequence suffix is parsed with a uint32 accumulator
that wraps silently modulo 2^32: every non-empty all-digit sequence
string is accepted and yields `decVal sq % 2^32` as the sequence number,
and that wrapped value is exactly the `seq` field of the pruning
candidate built for such a filename, i.e. the value prune ordering
uses. -/
theorem claim_C10 (base ts sq : List Char) (h1 : tsShapeSpec ts)
    (h2 : sq ≠ []) (h3 : ∀ c ∈ sq, isDigitCh c = true) :
    parse_rotation_suffix (base ++ '.' :: ts ++ '.' :: sq) base =
      some (ts, decVal sq % U32) ∧
    ∀ (s : SinkState) (content : List Char), s.basePath = base →
      (base ++ '.' :: ts ++ '.' :: sq, content) ∈ s.rotated →
      ({ name := base ++ '.' :: ts ++ '.' :: sq, ts := ts,
         seq := decVal sq % U32 } : Candidate) ∈ collectCandidates s := by
  have hlen : ts.length = 15 := by
    obtain ⟨d8, d6, h8, h6, _, _, rfl⟩ := h1
    simp [h8, h6]
  have hv : validTs ts = true := (validTs_iff ts hlen).mpr h1
  have hdp : dropPre (base ++ ['.']) (base ++ '.' :: (ts ++ '.' :: sq)) =
      some (ts ++ '.' :: sq) :=
    (dropPre_eq_some _ _ _).mpr (by simp)
  have hl1 : ¬ (ts ++ '.' :: sq).length < 15 := by
    simp only [List.length_append, List.length_cons]
    omega
  have hl2 : (ts ++ '.' :: sq).take 15 = ts := List.take_left' hlen
  have hl3 : (ts ++ '.' :: sq).drop 15 = '.' :: sq := List.drop_left' hlen
  have hloop : parseSeqLoop sq 0 = some (decVal sq % U32) := by
    have h := parseSeqLoop_digits sq 0 h3
    rw [Nat.zero_mod] at h
    exact h
  have hparse : parse_rotation_suffix (base ++ '.' :: ts ++ '.' :: sq) base =
      some (ts, decVal sq % U32) := by
    simp [parse_rotation_suffix, hdp, hl1, hl2, hl3, hv, h2, hloop, decVal]
    omega
  refine ⟨hparse, ?_⟩
  intro s content hbase hmem
  unfold collectCandidates
  refine List.mem_filterMap.mpr ⟨(base ++ '.' :: ts ++ '.' :: sq, content),
    hmem, ?_⟩
  rw [hbase]
  simp only [hparse]

theorem claim_C1_witness :
    (RotatingFileSink.write true "20240101_101010".data "abc".data wSt).2 = none ∧
    (RotatingFileSink.write true "20240101_101010".data "abc".data wSt).1.curContent =
      "abc".data ++ nlSuffix "abc".data :=
  ⟨(claim_C1 "20240101_101010".data "abc".data wSt rfl (by decide) (by decide)).1,
   ((claim_C1 "20240101_101010".data "abc".data wSt rfl (by decide)
      (by decide)).2.2.1 (by decide)).1⟩

theorem claim_C3_witness :
    chooseRotatedName (fsExists wSt) (wSt.basePath ++ '.' :: "20240101_101010".data) =
      (probeNames (wSt.basePath ++ '.' :: "20240101_101010".data)).find?
        (fun n => !(fsExists wSt n)) :=
  (claim_C3 "20240101_101010".data wSt rfl).1

theorem claim_C6_witness :
    (RotatingFileSink.write true "20240101_101010".data "a".data wSt2).1.rotated =
      wSt2.rotated ∧
    ("log.old".data, "x\n".data) ∈
      (RotatingFileSink.write true "20240101_101010".data "a".data wSt2).1.rotated :=
  ⟨(claim_C6 true "20240101_101010".data "a".data wSt2).1 (by decide),
   (claim_C6 true "20240101_101010".data "a".data wSt2).2.2 rfl
     ("log.old".data, "x\n".data) (by decide)⟩

theorem claim_C7_witness :
    (write_line_locked "abc".data wSt).2 = none ∧
    (write_line_locked "abc".data wSt).1.curContent =
      wSt.curContent ++ "abc".data ++
        (if ("abc".data : List Char).getLast? = some '\n' then [] else ['\n']) ∧
    (write_line_locked "abc".data wSt).1.bytesWritten =
      wSt.bytesWritten + ("abc".data : List Char).length +
        (if ("abc".data : List Char).getLast? = some '\n' then 0 else 1) :=
  claim_C7 "abc".data wSt rfl (by decide)

theorem claim_C8_witness :
    flush_locked true wSt = (wSt, none) ∧
    Nat.iterate (fun t => (flush_locked true t).1) 3 wSt = wSt :=
  ⟨(claim_C8 wSt rfl).1, (claim_C8 wSt rfl).2 3⟩

theorem claim_C4_witness :
    (prunePass wCands 1).1.length = wCands.length - 1 ∧
    (prunePass wCands 1).2.length = 1 :=
  ⟨(claim_C4 wCands 1 (by decide) (by decide)).1,
   (claim_C4 wCands 1 (by decide) (by decide)).2.1⟩

theorem claim_C5_witness :
    ("log.x".data, "a".data) ∈ (prune_old_rotations_locked wSt5).rotated :=
  (claim_C5 "log.x".data "log".data).2
    (fun hs => by
      have h := (claim_C5 "log.x".data "log".data).1.mpr hs
      exact absurd h (by decide))
    wSt5 "a".data rfl (by decide)

theorem claim_C10_witness :
    parse_rotation_suffix ("log".data ++ '.' :: "20240101_101010".data ++
      '.' :: "4294967296".data) "log".data =
      some ("20240101_101010".data, decVal "4294967296".data % U32) ∧
    decVal "4294967296".data % U32 = 0 :=
  ⟨(claim_C10 "log".data "20240101_101010".data "4294967296".data
      ⟨"20240101".data, "101010".data, by decide, by decide, by decide,
        by decide, by decide⟩
      (by decide) (by decide)).1,
   by decide⟩

theorem claim_C9_witness :
    (RotatingFileSink.write true "20240101_101010".data "abcd".data wStE).2 = none ∧
    (RotatingFileSink.write true "20240101_101010".data "abcd".data wStE).1.rotationsPerformed =
      wStE.rotationsPerformed + 1 ∧
    (RotatingFileSink.write true "20240101_101010".data "abcd".data wStE).1.curContent =
      "abcd".data ++ nlSuffix "abcd".data :=
  ⟨(claim_C9 "20240101_101010".data "abcd".data wStE rfl (by decide) (by decide)
      (by decide)).1,
   (claim_C9 "20240101_101010".data "abcd".data wStE rfl (by decide) (by decide)
      (by decide)).2.1,
   (claim_C9 "20240101_101010".data "abcd".data wStE rfl (by decide) (by decide)
      (by decide)).2.2.1⟩

end SimLogger
